import Mathlib

/-!
TulipGarden: a shallow embedding of `src/src/src.js` (the `TulipGarden` component and its
`Tulip` sub-component) together with the properties of its layout generator,
its bloom state machine and its per-part animation descriptors.

Conventions of the embedding:

* JavaScript numbers that the source only ever uses as integers (`left`,
  `size`, `hue`) are `Int`; the `%` operator is the truncated remainder
  `Int.tmod`, as in JavaScript.
* A JavaScript number with a fractional part is the exact rational value of a
  binary64 double; every operation on such numbers (`fadd`, `fmul`, `fdiv`) and
  every decimal literal (`lit`) rounds to the nearest double, ties to even
  (`fl`). The stored delay `delayD` and the animation offsets are computed this
  way.
* `delay` is the formula of line 16 read over exact rationals; on the 20
  generated indices `delayD i` is the double nearest to `delay i`.
* A CSS `animation` value is either the keyword `none` or a descriptor with a
  name, duration, easing, start offset and fill mode; it is embedded as
  `Option Animation`, `Option.none` standing for the keyword `none`.
* A number printed into a string by a template is embedded as its value;
  JavaScript prints different finite doubles as different strings.
* A colour string `hsl(h s% l%)` is embedded as the triple `(h, s, l)`.
* React state and the mount effect are embedded as an explicit state record and
  a step function over the events the component can receive.
-/

namespace TulipGarden

/-! ## Binary64 arithmetic of JavaScript numbers -/

/-- Exponent of the binade of `x` in binary64, clamped at the subnormal range. -/
def binadeExp (x : ℚ) : Int := if x = 0 then -1022 else max (Int.log 2 |x|) (-1022)

/-- Spacing of the binary64 values around `x` (53-bit significand). -/
def ulp (x : ℚ) : ℚ := (2 : ℚ) ^ (binadeExp x - 52)

/-- Nearest integer, ties to the even one. -/
def roundHalfEven (y : ℚ) : Int :=
  if y - (Int.floor y : ℚ) < 1 / 2 then Int.floor y
  else if 1 / 2 < y - (Int.floor y : ℚ) then Int.floor y + 1
  else if Int.floor y % 2 = 0 then Int.floor y
  else Int.floor y + 1

/-- Rounding of an exact value to binary64: round to nearest, ties to even.
The exponent range is unbounded above: overflow to `Infinity` (magnitudes from
`2^1024` on) is not represented, and no value used below comes near it. -/
def fl (x : ℚ) : ℚ := (roundHalfEven (x / ulp x) : ℚ) * ulp x

/-- JavaScript `a + b` on doubles. -/
def fadd (a b : ℚ) : ℚ := fl (a + b)

/-- JavaScript `a * b` on doubles. -/
def fmul (a b : ℚ) : ℚ := fl (a * b)

/-- JavaScript `a / b` on doubles. -/
def fdiv (a b : ℚ) : ℚ := fl (a / b)

/-- The double denoted by a decimal literal such as `0.1`. -/
def lit (x : ℚ) : ℚ := fl x

/-- The double `b * 0.1`. -/
def tenths (b : Nat) : ℚ := fmul (b : ℚ) (lit (1 / 10))

/-- The finite binary64 values: fixed points of the rounding below `2^1024`. -/
def IsDouble (x : ℚ) : Prop := fl x = x ∧ |x| < 2 ^ 1024

instance (x : ℚ) : Decidable (IsDouble x) := by
  unfold IsDouble
  infer_instance

/-! ## Layout generator (`src.js` lines 10-20) -/

/-- JavaScript `a % b` on integers: the remainder has the sign of `a`. -/
def jsMod (a b : Int) : Int := Int.tmod a b

/-- JavaScript `Math.floor`, on the exact value of the number. -/
def mathFloor (x : ℚ) : Int := Int.floor x

/-- JavaScript `Math.round`, on the exact value of the number: halves round up. -/
def mathRound (x : ℚ) : Int := Int.floor (x + 1 / 2)

/-- The record `{ id, left, size, delay, hue }` built for one tulip. -/
structure FlowerParams where
  id : Nat
  left : Int
  size : Int
  delay : ℚ
  hue : Int
  deriving DecidableEq

/-- Line 12: `const left = 4 + (i * 5) % 94`. -/
def left (i : Nat) : Int := 4 + jsMod ((i : Int) * 5) 94

/-- Line 14: `const size = 100 + (i % 5) * 22`. -/
def size (i : Nat) : Int := 100 + jsMod (i : Int) 5 * 22

/-- Line 16: `const delay = (i % 8) * 0.25 + Math.floor(i / 8) * 0.1`, read over
exact rationals. -/
def delay (i : Nat) : ℚ :=
  (jsMod (i : Int) 8 : ℚ) * (1 / 4) + (mathFloor ((i : ℚ) / 8) : ℚ) * (1 / 10)

/-- Line 16: `const delay = (i % 8) * 0.25 + Math.floor(i / 8) * 0.1`, as the
double that JavaScript computes. -/
def delayD (i : Nat) : ℚ :=
  fadd (fmul (jsMod (i : Int) 8 : ℚ) (lit (1 / 4)))
    (fmul (mathFloor (fdiv (i : ℚ) 8) : ℚ) (lit (1 / 10)))

/-- Line 18: `const hue = 310 - (i * 12) % 160`. -/
def hue (i : Nat) : Int := 310 - jsMod ((i : Int) * 12) 160

/-- The callback of `.map((_, i) => ...)`, lines 10-20. -/
def mkTulip (i : Nat) : FlowerParams :=
  { id := i, left := left i, size := size i, delay := delayD i, hue := hue i }

/-- Line 10: `Array.from({ length: 20 }).map(...)`. -/
def tulips : List FlowerParams := (List.range 20).map mkTulip

/-! ## Bloom state machine (`src.js` lines 6, 24-27, 112) -/

/-- The events the mounted component can receive. -/
inductive Event where
  | timerFire
  | buttonPress
  | unmount
  deriving DecidableEq, Repr

/-- The component instance: the `bloom` state cell, the host queue of pending
timer handles, whether the view is mounted, and the handle `t` captured by the
effect cleanup. -/
structure State where
  bloom : Bool
  timers : List Nat
  mounted : Bool
  t : Nat
  deriving DecidableEq, Repr

/-- Host `setTimeout`: allocates a fresh handle and enqueues it. -/
def setTimeout (queue : List Nat) : Nat × List Nat :=
  let t := queue.foldr max 0 + 1
  (t, queue ++ [t])

/-- Host `clearTimeout(t)`: removes the handle if it is still pending. -/
def clearTimeout (t : Nat) (queue : List Nat) : List Nat := queue.erase t

/-- Line 112: the updater passed to `setBloom` by the button, `(s) => !s`. -/
def toggle (s : Bool) : Bool := !s

/-- The state right after mounting: `useState(false)` (line 6) and the mount
effect `const t = setTimeout(() => setBloom(true), 400)` (line 25). -/
def mount : State :=
  let r := setTimeout []
  { bloom := false, timers := r.2, mounted := true, t := r.1 }

/-- One event of the component.
* `timerFire` is enabled while the handle `t` is pending; the host removes the
  handle and runs the callback `() => setBloom(true)`.
* `buttonPress` is enabled while the view is mounted; it runs
  `setBloom((s) => !s)`.
* `unmount` is enabled while the view is mounted; it runs the effect cleanup
  `() => clearTimeout(t)`. -/
def step (e : Event) (s : State) : Option State :=
  match e with
  | Event.timerFire =>
      if s.t ∈ s.timers then
        some { s with timers := s.timers.erase s.t, bloom := true }
      else none
  | Event.buttonPress =>
      if s.mounted then some { s with bloom := toggle s.bloom } else none
  | Event.unmount =>
      if s.mounted then
        some { s with mounted := false, timers := clearTimeout s.t s.timers }
      else none

/-- Runs a sequence of events; `none` when some event is not enabled. -/
def run : List Event → State → Option State
  | [], s => some s
  | e :: es, s => (step e s).bind (run es)

/-- Invariant of the component: the only timer ever pending is the one the
mount effect scheduled, and it is pending only while the view is mounted. -/
def Inv (s : State) : Prop :=
  s.timers = [] ∨ (s.timers = [s.t] ∧ s.mounted = true)

instance (s : State) : Decidable (Inv s) := by
  unfold Inv
  infer_instance

/-! ## The `Tulip` sub-component (`src.js` lines 124-171) -/

/-- A CSS animation descriptor `name duration easing delay fill`. -/
structure Animation where
  name : String
  duration : ℚ
  easing : String
  delay : ℚ
  fill : String
  deriving DecidableEq

/-- The colour `hsl(h s% l%)`. -/
structure Hsl where
  h : Int
  s : Nat
  l : Nat
  deriving DecidableEq

/-- Line 126: `hsl(hue 80% 65%)`. -/
def petal1 (hue : Int) : Hsl := { h := hue, s := 80, l := 65 }

/-- Line 127: `hsl((hue + 10) % 360 85% 60%)`. -/
def petal2 (hue : Int) : Hsl := { h := jsMod (hue + 10) 360, s := 85, l := 60 }

/-- Line 128: `hsl((hue - 10 + 360) % 360 75% 70%)`. -/
def petal3 (hue : Int) : Hsl := { h := jsMod (hue - 10 + 360) 360, s := 75, l := 70 }

/-- The object `stemStyle` of lines 132-138 (the two constant string fields
`margin` and `transformOrigin` are left out). -/
structure StemStyle where
  height : ℚ
  width : Int
  animation : Option Animation
  deriving DecidableEq

/-- Lines 132-138. -/
def stemStyle (size : Int) (delay : ℚ) (bloom : Bool) : StemStyle :=
  { height := fmul (size : ℚ) (lit (11 / 10))
    width := max 8 (mathRound (fmul (size : ℚ) (lit (7 / 50))))
    animation :=
      if bloom then
        some { name := "stem-grow", duration := 9 / 10,
               easing := "cubic-bezier(.12,.9,.3,1)", delay := delay, fill := "forwards" }
      else none }

/-- Lines 141-143: the `animation` field of `petalCommon(idx)`; the start offset
is `delay + idx * 0.1` in double arithmetic. -/
def petalCommon (delay : ℚ) (bloom : Bool) (idx : Nat) : Option Animation :=
  if bloom then
    some { name := "petal-bloom", duration := 8 / 10,
           easing := "cubic-bezier(.2,.9,.25,1)",
           delay := fadd delay (fmul (idx : ℚ) (lit (1 / 10))), fill := "both" }
  else none

/-- What `Tulip` renders: the stem with its style, the three petals with their
fill and style, and the inner highlight with its style (lines 151-161). -/
structure TulipView where
  stem : StemStyle
  petalA : Hsl × Option Animation
  petalB : Hsl × Option Animation
  petalC : Hsl × Option Animation
  highlight : Option Animation
  deriving DecidableEq

/-- The component `Tulip({ size, hue, delay, bloom })`, lines 124-171. -/
def Tulip (size hue : Int) (delay : ℚ) (bloom : Bool) : TulipView :=
  { stem := stemStyle size delay bloom
    petalA := (petal1 hue, petalCommon delay bloom 0)
    petalB := (petal2 hue, petalCommon delay bloom 1)
    petalC := (petal3 hue, petalCommon delay bloom 2)
    highlight := petalCommon delay bloom 3 }

/-- The `animation` values of the five animated parts, in document order:
stem, petal 0, petal 1, petal 2, highlight. -/
def TulipView.animations (v : TulipView) : List (Option Animation) :=
  [v.stem.animation, v.petalA.2, v.petalB.2, v.petalC.2, v.highlight]

/-- The start offsets (animation-delay) of the five animated parts. -/
def TulipView.startOffsets (v : TulipView) : List (Option ℚ) :=
  v.animations.map (Option.map Animation.delay)

/-- Lines 89-97: `tulips.map((t) => <Tulip size hue delay bloom={bloom} />)`. -/
def render (bloom : Bool) : List TulipView :=
  tulips.map (fun t => Tulip t.size t.hue t.delay bloom)

/-- Line 115: the button label. -/
def buttonLabel (bloom : Bool) : String :=
  if bloom then "Reset Garden" else "Watch Them Bloom!"

/-! ## Auxiliary lemmas: arithmetic of the layout generator -/

theorem jsMod_of_nonneg (a b : Int) (ha : 0 ≤ a) (hb : 0 ≤ b) : jsMod a b = a % b := by
  unfold jsMod
  exact Int.tmod_eq_emod ha hb

theorem left_eq (i : Nat) : left i = 4 + (((5 * i % 94 : Nat)) : Int) := by
  unfold left
  rw [jsMod_of_nonneg _ _ (by positivity) (by norm_num)]
  push_cast
  rw [mul_comm]

theorem size_eq (i : Nat) : size i = 100 + ((i % 5 : Nat) : Int) * 22 := by
  unfold size
  rw [jsMod_of_nonneg _ _ (by positivity) (by norm_num)]
  push_cast
  rfl

theorem hue_eq (i : Nat) : hue i = 310 - (((12 * i % 160 : Nat)) : Int) := by
  unfold hue
  rw [jsMod_of_nonneg _ _ (by positivity) (by norm_num)]
  push_cast
  rw [mul_comm]

theorem delay_eq (i : Nat) :
    delay i = ((i % 8 : Nat) : ℚ) * (1 / 4) + ((i / 8 : Nat) : ℚ) * (1 / 10) := by
  unfold delay mathFloor
  rw [jsMod_of_nonneg _ _ (by positivity) (by norm_num)]
  have h : Int.floor ((i : ℚ) / 8) = ((i / 8 : Nat) : Int) := by
    have := Rat.floor_natCast_div_natCast i 8
    simpa using this
  rw [h]
  push_cast
  rfl

theorem left_first_cycle (k : Nat) (h : k < 19) : left k = 4 + 5 * (k : Int) := by
  rw [left_eq, Nat.mod_eq_of_lt (by omega)]
  push_cast
  rfl

theorem left_wrap : left 19 = 5 := by decide

/-! ## Auxiliary lemmas: binary64 rounding -/

theorem ulp_pos (x : ℚ) : 0 < ulp x := by
  unfold ulp
  positivity

theorem roundHalfEven_eq_of_abs_lt (y : ℚ) (n : Int) (h : |y - n| < 1 / 2) :
    roundHalfEven y = n := by
  rw [abs_lt] at h
  obtain ⟨h1, h2⟩ := h
  rcases le_or_lt (n : ℚ) y with hy | hy
  · have hf : Int.floor y = n := by
      rw [Int.floor_eq_iff]
      constructor
      · exact hy
      · linarith
    unfold roundHalfEven
    rw [hf, if_pos (by linarith)]
  · have hf : Int.floor y = n - 1 := by
      rw [Int.floor_eq_iff]
      push_cast
      constructor <;> linarith
    unfold roundHalfEven
    rw [hf]
    push_cast
    rw [if_neg (by linarith), if_pos (by linarith)]
    ring

theorem roundHalfEven_intCast (n : Int) : roundHalfEven (n : ℚ) = n :=
  roundHalfEven_eq_of_abs_lt _ n (by simp)

theorem abs_roundHalfEven_sub_le (y : ℚ) : |(roundHalfEven y : ℚ) - y| ≤ 1 / 2 := by
  have h1 := Int.floor_le y
  have h2 := Int.lt_floor_add_one y
  unfold roundHalfEven
  rw [abs_le]
  split_ifs with a b c
  · constructor <;> linarith
  · push_cast; constructor <;> linarith
  · constructor <;> linarith
  · push_cast; constructor <;> linarith

theorem abs_fl_sub_le (x : ℚ) : |fl x - x| ≤ ulp x / 2 := by
  have hq := ulp_pos x
  have h := abs_roundHalfEven_sub_le (x / ulp x)
  have e : fl x - x = ((roundHalfEven (x / ulp x) : ℚ) - x / ulp x) * ulp x := by
    unfold fl
    field_simp
  rw [e, abs_mul, abs_of_pos hq]
  calc |(roundHalfEven (x / ulp x) : ℚ) - x / ulp x| * ulp x ≤ 1 / 2 * ulp x := by
        exact mul_le_mul_of_nonneg_right h hq.le
    _ = ulp x / 2 := by ring

theorem binadeExp_eq (x : ℚ) (e : Int) (he : -1022 ≤ e) (hlo : (2 : ℚ) ^ e ≤ |x|)
    (hhi : |x| < (2 : ℚ) ^ (e + 1)) : binadeExp x = e := by
  have hpos : 0 < |x| := lt_of_lt_of_le (by positivity) hlo
  have h1 : e ≤ Int.log 2 |x| := by
    rw [← Int.zpow_le_iff_le_log (by norm_num) hpos]
    exact_mod_cast hlo
  have h2 : Int.log 2 |x| < e + 1 := by
    rw [← Int.lt_zpow_iff_log_lt (by norm_num) hpos]
    exact_mod_cast hhi
  have hx : x ≠ 0 := abs_pos.mp hpos
  unfold binadeExp
  rw [if_neg hx]
  omega

theorem binadeExp_le (x : ℚ) (k : Int) (hk : -1022 ≤ k) (h : |x| < (2 : ℚ) ^ (k + 1)) :
    binadeExp x ≤ k := by
  unfold binadeExp
  split_ifs with h0
  · exact hk
  · have hpos : 0 < |x| := abs_pos.mpr h0
    have h2 : Int.log 2 |x| < k + 1 := by
      rw [← Int.lt_zpow_iff_log_lt (by norm_num) hpos]
      exact_mod_cast h
    omega

theorem ulp_le (x : ℚ) (k : Int) (hk : -1022 ≤ k) (h : |x| < (2 : ℚ) ^ (k + 1)) :
    ulp x ≤ (2 : ℚ) ^ (k - 52) := by
  unfold ulp
  apply zpow_le_zpow_right₀ (by norm_num)
  have := binadeExp_le x k hk h
  omega

theorem binadeExp_ge (x : ℚ) : -1022 ≤ binadeExp x := by
  unfold binadeExp
  split_ifs
  · exact le_refl _
  · exact le_max_right _ _

theorem abs_lt_zpow_binadeExp (x : ℚ) : |x| < (2 : ℚ) ^ (binadeExp x + 1) := by
  unfold binadeExp
  split_ifs with h0
  · rw [h0, abs_zero]
    positivity
  · have h1 : |x| < ((2 : ℕ) : ℚ) ^ (Int.log 2 |x| + 1) := Int.lt_zpow_succ_log_self (by norm_num) _
    have h2 : ((2 : ℕ) : ℚ) ^ (Int.log 2 |x| + 1) ≤ (2 : ℚ) ^ (max (Int.log 2 |x|) (-1022) + 1) := by
      push_cast
      apply zpow_le_zpow_right₀ (by norm_num)
      have := le_max_left (Int.log 2 |x|) (-1022)
      omega
    exact lt_of_lt_of_le h1 h2

theorem zpow_binadeExp_le_abs (x : ℚ) (h : binadeExp x ≠ -1022) :
    (2 : ℚ) ^ binadeExp x ≤ |x| := by
  unfold binadeExp at h ⊢
  split_ifs at h ⊢ with h0
  · exact absurd rfl h
  · have hpos : 0 < |x| := abs_pos.mpr h0
    have hm : max (Int.log 2 |x|) (-1022) = Int.log 2 |x| := by
      rcases le_total (Int.log 2 |x|) (-1022) with c | c
      · rw [max_eq_right c] at h
        exact absurd rfl h
      · exact max_eq_left c
    rw [hm]
    have := Int.zpow_log_le_self (b := 2) (r := |x|) (by norm_num) hpos
    exact_mod_cast this

theorem fl_eq_of_binade (x : ℚ) (e n : Int) (hb : binadeExp x = e)
    (hn : |x / (2 : ℚ) ^ (e - 52) - n| < 1 / 2) :
    fl x = (n : ℚ) * (2 : ℚ) ^ (e - 52) := by
  have hu : ulp x = (2 : ℚ) ^ (e - 52) := by
    unfold ulp
    rw [hb]
  unfold fl
  rw [hu, roundHalfEven_eq_of_abs_lt _ n hn]

theorem fl_eq_of_near (x : ℚ) (e n : Int) (he : -1022 ≤ e) (hlo : (2 : ℚ) ^ e ≤ |x|)
    (hhi : |x| < (2 : ℚ) ^ (e + 1)) (hn : |x / (2 : ℚ) ^ (e - 52) - n| < 1 / 2) :
    fl x = (n : ℚ) * (2 : ℚ) ^ (e - 52) :=
  fl_eq_of_binade x e n (binadeExp_eq x e he hlo hhi) hn

theorem fl_zero : fl 0 = 0 := by
  unfold fl
  simp [roundHalfEven]

theorem le_abs_roundHalfEven (y : ℚ) (m : Int) (h : (m : ℚ) ≤ |y|) :
    (m : ℚ) ≤ |(roundHalfEven y : ℚ)| := by
  have hr := abs_le.mp (abs_roundHalfEven_sub_le y)
  rcases le_total 0 y with hy | hy
  · rw [abs_of_nonneg hy] at h
    have h1 : (m : ℚ) < (roundHalfEven y : ℚ) + 1 := by linarith [hr.1]
    have h2 : m ≤ roundHalfEven y := by
      have : m < roundHalfEven y + 1 := by exact_mod_cast h1
      omega
    exact le_trans (by exact_mod_cast h2) (le_abs_self _)
  · rw [abs_of_nonpos hy] at h
    have h1 : (roundHalfEven y : ℚ) - 1 < -(m : ℚ) := by linarith [hr.2]
    have h2 : roundHalfEven y ≤ -m := by
      have : roundHalfEven y - 1 < -m := by exact_mod_cast h1
      omega
    have h3 : (roundHalfEven y : ℚ) ≤ -(m : ℚ) := by exact_mod_cast h2
    exact le_trans (by linarith) (neg_le_abs _)

theorem abs_roundHalfEven_le (y : ℚ) (m : Int) (h : |y| ≤ (m : ℚ)) :
    |(roundHalfEven y : ℚ)| ≤ (m : ℚ) := by
  have hr := abs_le.mp (abs_roundHalfEven_sub_le y)
  have hy := abs_le.mp h
  rw [abs_le]
  constructor
  · have h1 : -(m : ℚ) - 1 < (roundHalfEven y : ℚ) := by linarith [hr.1, hy.1]
    have h2 : -m - 1 < roundHalfEven y := by exact_mod_cast h1
    have h3 : -m ≤ roundHalfEven y := by omega
    exact_mod_cast h3
  · have h1 : (roundHalfEven y : ℚ) < (m : ℚ) + 1 := by linarith [hr.2, hy.2]
    have h2 : roundHalfEven y < m + 1 := by exact_mod_cast h1
    have h3 : roundHalfEven y ≤ m := by omega
    exact_mod_cast h3

/-- Every value on the binary64 grid is a fixed point of the rounding. -/
theorem fl_of_grid (n k : Int) (hk : -1022 ≤ k) (hn : |(n : ℚ)| ≤ 2 ^ 53)
    (hnorm : (2 : ℚ) ^ 52 ≤ |(n : ℚ)| ∨ k = -1022) :
    fl ((n : ℚ) * (2 : ℚ) ^ (k - 52)) = (n : ℚ) * (2 : ℚ) ^ (k - 52) := by
  have hq : (0 : ℚ) < (2 : ℚ) ^ (k - 52) := by positivity
  have hsplit : (2 : ℚ) ^ k = 2 ^ 52 * (2 : ℚ) ^ (k - 52) := by
    rw [show k = 52 + (k - 52) by ring, zpow_add₀ (by norm_num)]
    norm_num
  have hsplit1 : (2 : ℚ) ^ (k + 1) = 2 ^ 53 * (2 : ℚ) ^ (k - 52) := by
    rw [show k + 1 = 53 + (k - 52) by ring, zpow_add₀ (by norm_num)]
    norm_num
  have hsplit2 : (2 : ℚ) ^ (k + 1 + 1) = 2 ^ 54 * (2 : ℚ) ^ (k - 52) := by
    rw [show k + 1 + 1 = 54 + (k - 52) by ring, zpow_add₀ (by norm_num)]
    norm_num
  have habs : |(n : ℚ) * (2 : ℚ) ^ (k - 52)| = |(n : ℚ)| * (2 : ℚ) ^ (k - 52) := by
    rw [abs_mul, abs_of_pos hq]
  rcases eq_or_lt_of_le hn with htop | hlt
  · -- the mantissa is ±2^53: the value is the power of two opening the next binade
    have hb : binadeExp ((n : ℚ) * (2 : ℚ) ^ (k - 52)) = k + 1 := by
      apply binadeExp_eq _ _ (by omega)
      · rw [habs, htop, hsplit1]
      · rw [habs, htop, hsplit2]
        apply mul_lt_mul_of_pos_right (by norm_num) hq
    have hq1 : (2 : ℚ) ^ (k + 1 - 52) = 2 * (2 : ℚ) ^ (k - 52) := by
      rw [show k + 1 - 52 = 1 + (k - 52) by ring, zpow_add₀ (by norm_num)]
      norm_num
    have hn2 : ∃ m : Int, n = 2 * m := by
      rcases abs_eq (by norm_num : (0 : ℚ) ≤ 2 ^ 53) |>.mp htop with c | c
      · exact ⟨2 ^ 52, by
          have : (n : ℚ) = ((2 ^ 53 : Int) : ℚ) := by rw [c]; norm_num
          have h3 : n = 2 ^ 53 := by exact_mod_cast this
          rw [h3]; norm_num⟩
      · exact ⟨-2 ^ 52, by
          have : (n : ℚ) = ((-2 ^ 53 : Int) : ℚ) := by rw [c]; norm_num
          have h3 : n = -2 ^ 53 := by exact_mod_cast this
          rw [h3]; norm_num⟩
    obtain ⟨m, rfl⟩ := hn2
    rw [fl_eq_of_binade _ (k + 1) m hb]
    · rw [hq1]
      push_cast
      ring
    · rw [hq1]
      have : ((2 * m : Int) : ℚ) * (2 : ℚ) ^ (k - 52) / (2 * (2 : ℚ) ^ (k - 52)) - m = 0 := by
        push_cast
        field_simp
        ring
      rw [this]
      norm_num
  · have hb : binadeExp ((n : ℚ) * (2 : ℚ) ^ (k - 52)) = k := by
      rcases hnorm with hge | hsub
      · apply binadeExp_eq _ _ hk
        · rw [habs, hsplit]
          exact mul_le_mul_of_nonneg_right hge hq.le
        · rw [habs, hsplit1]
          exact mul_lt_mul_of_pos_right hlt hq
      · have h1 := binadeExp_ge ((n : ℚ) * (2 : ℚ) ^ (k - 52))
        have h2 : binadeExp ((n : ℚ) * (2 : ℚ) ^ (k - 52)) ≤ k := by
          apply binadeExp_le _ _ hk
          rw [habs, hsplit1]
          exact mul_lt_mul_of_pos_right hlt hq
        omega
    rw [fl_eq_of_binade _ k n hb]
    have : (n : ℚ) * (2 : ℚ) ^ (k - 52) / (2 : ℚ) ^ (k - 52) - n = 0 := by
      field_simp
    rw [this]
    norm_num

/-- Rounding is idempotent: the result of an operation is a binary64 value. -/
theorem fl_fl (x : ℚ) : fl (fl x) = fl x := by
  have hq := ulp_pos x
  have hlt := abs_lt_zpow_binadeExp x
  have hk := binadeExp_ge x
  have hsplit : (2 : ℚ) ^ binadeExp x = 2 ^ 52 * ulp x := by
    unfold ulp
    rw [← zpow_natCast, ← zpow_add₀ (by norm_num)]
    congr 1
    push_cast
    ring
  have hsplit1 : (2 : ℚ) ^ (binadeExp x + 1) = 2 ^ 53 * ulp x := by
    unfold ulp
    rw [← zpow_natCast, ← zpow_add₀ (by norm_num)]
    congr 1
    push_cast
    ring
  have habs : |x / ulp x| = |x| / ulp x := by
    rw [abs_div, abs_of_pos hq]
  have hfl : fl x = (roundHalfEven (x / ulp x) : ℚ) * (2 : ℚ) ^ (binadeExp x - 52) := rfl
  rw [hfl]
  apply fl_of_grid _ _ hk
  · have : |x / ulp x| ≤ ((2 ^ 53 : Int) : ℚ) := by
      rw [habs, div_le_iff₀ hq]
      have e : (((2 ^ 53 : Int) : ℚ)) = 2 ^ 53 := by norm_num
      rw [e, ← hsplit1]
      exact hlt.le
    have := abs_roundHalfEven_le _ _ this
    exact_mod_cast this
  · by_cases hs : binadeExp x = -1022
    · right; exact hs
    · left
      have hlo := zpow_binadeExp_le_abs x hs
      have : ((2 ^ 52 : Int) : ℚ) ≤ |x / ulp x| := by
        rw [habs, le_div_iff₀ hq]
        have e : (((2 ^ 52 : Int) : ℚ)) = 2 ^ 52 := by norm_num
        rw [e, ← hsplit]
        exact hlo
      have := le_abs_roundHalfEven _ _ this
      exact_mod_cast this

/-- A value whose quotient by the local spacing is an integer is not changed by
the rounding. -/
theorem fl_eq_self_of_int (x : ℚ) (n : Int) (h : x = (n : ℚ) * ulp x) : fl x = x := by
  have hq := ulp_pos x
  have e : x / ulp x = (n : ℚ) := by
    rw [div_eq_iff hq.ne']
    exact h
  unfold fl
  rw [e, roundHalfEven_intCast]
  exact h.symm

/-- Integers below `2^53` scaled by a power of two are binary64 values. -/
theorem fl_int_mul_zpow (m j : Int) (hm : |(m : ℚ)| < 2 ^ 53) (hj : -1074 ≤ j) :
    fl ((m : ℚ) * (2 : ℚ) ^ j) = (m : ℚ) * (2 : ℚ) ^ j := by
  have hpos : (0 : ℚ) < (2 : ℚ) ^ j := by positivity
  have hlt : |(m : ℚ) * (2 : ℚ) ^ j| < (2 : ℚ) ^ (j + 52 + 1) := by
    rw [abs_mul, abs_of_pos hpos, show j + 52 + 1 = 53 + j by ring, zpow_add₀ (by norm_num)]
    have : (2 : ℚ) ^ (53 : Int) = 2 ^ 53 := by norm_num
    rw [this]
    exact mul_lt_mul_of_pos_right hm hpos
  have hk := binadeExp_le _ (j + 52) (by omega) hlt
  obtain ⟨d, hd⟩ : ∃ d : Nat, j + 52 - binadeExp ((m : ℚ) * (2 : ℚ) ^ j) = d :=
    ⟨(j + 52 - binadeExp ((m : ℚ) * (2 : ℚ) ^ j)).toNat, by omega⟩
  apply fl_eq_self_of_int _ (m * 2 ^ d)
  unfold ulp
  have hj2 : j = (d : Int) + (binadeExp ((m : ℚ) * (2 : ℚ) ^ j) - 52) := by omega
  push_cast
  rw [mul_assoc, ← zpow_natCast, ← zpow_add₀ (by norm_num), ← hj2]

theorem lit_quarter : lit (1 / 4) = 1 / 4 := by
  have := fl_int_mul_zpow 1 (-2) (by norm_num) (by norm_num)
  unfold lit
  norm_num at this ⊢
  exact this

theorem tenth_eq : lit (1 / 10) = 3602879701896397 / 36028797018963968 := by
  unfold lit
  rw [fl_eq_of_near (1 / 10) (-4) 7205759403792794 (by norm_num) (by norm_num [abs_of_pos])
    (by norm_num [abs_of_pos]) (by norm_num [abs_lt])]
  norm_num

theorem roundHalfEven_half_odd (f : Int) (h : f % 2 = 1) :
    roundHalfEven ((f : ℚ) + 1 / 2) = f + 1 := by
  have hf : Int.floor ((f : ℚ) + 1 / 2) = f := by
    rw [Int.floor_eq_iff]
    constructor <;> linarith
  unfold roundHalfEven
  rw [hf]
  have e : (f : ℚ) + 1 / 2 - (f : ℚ) = 1 / 2 := by ring
  rw [e, if_neg (lt_irrefl _), if_neg (lt_irrefl _), if_neg (by omega)]

theorem fmul_zero_tenth : fmul ((0 : Nat) : ℚ) (lit (1 / 10)) = 0 := by
  unfold fmul
  simp [fl_zero]

theorem fmul_one_tenth :
    fmul ((1 : Nat) : ℚ) (lit (1 / 10)) = 3602879701896397 / 36028797018963968 := by
  unfold fmul
  rw [Nat.cast_one, one_mul]
  unfold lit
  rw [fl_fl]
  exact tenth_eq

theorem fmul_two_tenth :
    fmul ((2 : Nat) : ℚ) (lit (1 / 10)) = 3602879701896397 / 18014398509481984 := by
  unfold fmul
  rw [tenth_eq]
  have := fl_int_mul_zpow 3602879701896397 (-54) (by norm_num) (by norm_num)
  norm_num at this ⊢
  exact this

theorem fmul_three_tenth :
    fmul ((3 : Nat) : ℚ) (lit (1 / 10)) = 1351079888211149 / 4503599627370496 := by
  unfold fmul
  rw [tenth_eq]
  have hb : binadeExp (((3 : Nat) : ℚ) * (3602879701896397 / 36028797018963968)) = -2 := by
    apply binadeExp_eq _ _ (by norm_num) <;> norm_num [abs_of_pos]
  have hu : ulp (((3 : Nat) : ℚ) * (3602879701896397 / 36028797018963968)) = (2 : ℚ) ^ (-54 : Int) := by
    unfold ulp
    rw [hb]
    norm_num
  unfold fl
  rw [hu]
  have e : ((3 : Nat) : ℚ) * (3602879701896397 / 36028797018963968) / (2 : ℚ) ^ (-54 : Int)
      = ((5404319552844595 : Int) : ℚ) + 1 / 2 := by
    norm_num
  rw [e, roundHalfEven_half_odd _ (by norm_num)]
  norm_num

theorem roundHalfEven_half_even (f : Int) (h : f % 2 = 0) :
    roundHalfEven ((f : ℚ) + 1 / 2) = f := by
  have hf : Int.floor ((f : ℚ) + 1 / 2) = f := by
    rw [Int.floor_eq_iff]
    constructor <;> linarith
  unfold roundHalfEven
  rw [hf]
  have e : (f : ℚ) + 1 / 2 - (f : ℚ) = 1 / 2 := by ring
  rw [e, if_neg (lt_irrefl _), if_neg (lt_irrefl _), if_pos h]

/-- Evaluation of the rounding at a positive value away from a tie. -/
theorem fl_val (x v : ℚ) (e n : Int) (he : -1022 ≤ e) (hlo : (2 : ℚ) ^ e ≤ x)
    (hhi : x < (2 : ℚ) ^ (e + 1)) (hn1 : (n : ℚ) - 1 / 2 < x / (2 : ℚ) ^ (e - 52))
    (hn2 : x / (2 : ℚ) ^ (e - 52) < (n : ℚ) + 1 / 2) (hv : v = (n : ℚ) * (2 : ℚ) ^ (e - 52)) :
    fl x = v := by
  have hx : 0 < x := lt_of_lt_of_le (by positivity) hlo
  rw [hv]
  apply fl_eq_of_near x e n he
  · rw [abs_of_pos hx]; exact hlo
  · rw [abs_of_pos hx]; exact hhi
  · rw [abs_lt]
    constructor <;> linarith

/-- Evaluation of the rounding at a positive tie whose lower neighbour is even. -/
theorem fl_val_tie_even (x v : ℚ) (e f : Int) (he : -1022 ≤ e) (hlo : (2 : ℚ) ^ e ≤ x)
    (hhi : x < (2 : ℚ) ^ (e + 1)) (hx : x / (2 : ℚ) ^ (e - 52) = (f : ℚ) + 1 / 2)
    (hev : f % 2 = 0) (hv : v = (f : ℚ) * (2 : ℚ) ^ (e - 52)) :
    fl x = v := by
  have hpos : 0 < x := lt_of_lt_of_le (by positivity) hlo
  have hu : ulp x = (2 : ℚ) ^ (e - 52) := by
    unfold ulp
    rw [binadeExp_eq x e he (by rw [abs_of_pos hpos]; exact hlo)
      (by rw [abs_of_pos hpos]; exact hhi)]
  unfold fl
  rw [hu, hx, roundHalfEven_half_even f hev, hv]

theorem tenths_zero : tenths 0 = 0 := fmul_zero_tenth

theorem tenths_one : tenths 1 = 3602879701896397 / 36028797018963968 := fmul_one_tenth

theorem tenths_two : tenths 2 = 3602879701896397 / 18014398509481984 := fmul_two_tenth

theorem tenths_three : tenths 3 = 1351079888211149 / 4503599627370496 := fmul_three_tenth

theorem delayD_unfold (i : Nat) (h : i < 2 ^ 53) :
    delayD i = fl (((i % 8 : Nat) : ℚ) / 4 + tenths (i / 8)) := by
  have h1 : fmul (jsMod (i : Int) 8 : ℚ) (lit (1 / 4)) = ((i % 8 : Nat) : ℚ) / 4 := by
    rw [jsMod_of_nonneg _ _ (by positivity) (by norm_num), lit_quarter]
    have hc : ((i : Int) % 8) = ((i % 8 : Nat) : Int) := by omega
    rw [hc, Int.cast_natCast]
    unfold fmul
    have hlt : ((i % 8 : Nat) : ℚ) < 8 := by
      have : i % 8 < 8 := Nat.mod_lt _ (by norm_num)
      exact_mod_cast this
    have hm : |(((i % 8 : Nat) : Int) : ℚ)| < 2 ^ 53 := by
      rw [Int.cast_natCast, abs_of_nonneg (by positivity)]
      linarith
    have := fl_int_mul_zpow ((i % 8 : Nat) : Int) (-2) hm (by norm_num)
    have e : (2 : ℚ) ^ (-2 : Int) = 1 / 4 := by norm_num
    rw [e, Int.cast_natCast] at this
    rw [this]
    ring
  have h2 : fl ((i : ℚ) / 8) = (i : ℚ) / 8 := by
    have hm : |(((i : Nat) : Int) : ℚ)| < 2 ^ 53 := by
      rw [Int.cast_natCast, abs_of_nonneg (by positivity)]
      exact_mod_cast h
    have := fl_int_mul_zpow (i : Int) (-3) hm (by norm_num)
    have e : (2 : ℚ) ^ (-3 : Int) = 1 / 8 := by norm_num
    rw [e, Int.cast_natCast] at this
    rw [show (i : ℚ) / 8 = (i : ℚ) * (1 / 8) by ring]
    exact this
  have h3 : mathFloor ((i : ℚ) / 8) = ((i / 8 : Nat) : Int) := by
    unfold mathFloor
    have := Rat.floor_natCast_div_natCast i 8
    simpa using this
  unfold delayD fadd fdiv
  rw [h1, h2, h3]
  rfl

/-- Over the 20 generated indices the double that line 16 computes is the
binary64 value nearest to the exact rational `delay i`. -/
theorem delayD_eq_fl_delay (i : Nat) (h : i < 20) : delayD i = fl (delay i) := by
  rw [delayD_unfold i (by omega), delay_eq i]
  interval_cases i
  · have a : ((0 % 8 : ℕ) : ℚ) / 4 + tenths (0 / 8) = 0 := by norm_num [tenths_zero]
    have b : ((0 % 8 : ℕ) : ℚ) * (1 / 4) + ((0 / 8 : ℕ) : ℚ) * (1 / 10) = 0 := by norm_num
    rw [a, b]
  · have a : ((1 % 8 : ℕ) : ℚ) / 4 + tenths (1 / 8) = 1 / 4 := by norm_num [tenths_zero]
    have b : ((1 % 8 : ℕ) : ℚ) * (1 / 4) + ((1 / 8 : ℕ) : ℚ) * (1 / 10) = 1 / 4 := by norm_num
    rw [a, b]
  · have a : ((2 % 8 : ℕ) : ℚ) / 4 + tenths (2 / 8) = 1 / 2 := by norm_num [tenths_zero]
    have b : ((2 % 8 : ℕ) : ℚ) * (1 / 4) + ((2 / 8 : ℕ) : ℚ) * (1 / 10) = 1 / 2 := by norm_num
    rw [a, b]
  · have a : ((3 % 8 : ℕ) : ℚ) / 4 + tenths (3 / 8) = 3 / 4 := by norm_num [tenths_zero]
    have b : ((3 % 8 : ℕ) : ℚ) * (1 / 4) + ((3 / 8 : ℕ) : ℚ) * (1 / 10) = 3 / 4 := by norm_num
    rw [a, b]
  · have a : ((4 % 8 : ℕ) : ℚ) / 4 + tenths (4 / 8) = 1 := by norm_num [tenths_zero]
    have b : ((4 % 8 : ℕ) : ℚ) * (1 / 4) + ((4 / 8 : ℕ) : ℚ) * (1 / 10) = 1 := by norm_num
    rw [a, b]
  · have a : ((5 % 8 : ℕ) : ℚ) / 4 + tenths (5 / 8) = 5 / 4 := by norm_num [tenths_zero]
    have b : ((5 % 8 : ℕ) : ℚ) * (1 / 4) + ((5 / 8 : ℕ) : ℚ) * (1 / 10) = 5 / 4 := by norm_num
    rw [a, b]
  · have a : ((6 % 8 : ℕ) : ℚ) / 4 + tenths (6 / 8) = 3 / 2 := by norm_num [tenths_zero]
    have b : ((6 % 8 : ℕ) : ℚ) * (1 / 4) + ((6 / 8 : ℕ) : ℚ) * (1 / 10) = 3 / 2 := by norm_num
    rw [a, b]
  · have a : ((7 % 8 : ℕ) : ℚ) / 4 + tenths (7 / 8) = 7 / 4 := by norm_num [tenths_zero]
    have b : ((7 % 8 : ℕ) : ℚ) * (1 / 4) + ((7 / 8 : ℕ) : ℚ) * (1 / 10) = 7 / 4 := by norm_num
    rw [a, b]
  · have a : ((8 % 8 : ℕ) : ℚ) / 4 + tenths (8 / 8) = 3602879701896397 / 36028797018963968 := by norm_num [tenths_one]
    have b : ((8 % 8 : ℕ) : ℚ) * (1 / 4) + ((8 / 8 : ℕ) : ℚ) * (1 / 10) = 1 / 10 := by norm_num
    rw [a, b, fl_val (3602879701896397 / 36028797018963968) (3602879701896397 / 36028797018963968) (-4) 7205759403792794 (by norm_num) (by norm_num) (by norm_num)
        (by norm_num) (by norm_num) (by norm_num),
      fl_val (1 / 10) (3602879701896397 / 36028797018963968) (-4) 7205759403792794 (by norm_num) (by norm_num) (by norm_num)
        (by norm_num) (by norm_num) (by norm_num)]
  · have a : ((9 % 8 : ℕ) : ℚ) / 4 + tenths (9 / 8) = 12610078956637389 / 36028797018963968 := by norm_num [tenths_one]
    have b : ((9 % 8 : ℕ) : ℚ) * (1 / 4) + ((9 / 8 : ℕ) : ℚ) * (1 / 10) = 7 / 20 := by norm_num
    rw [a, b, fl_val_tie_even (12610078956637389 / 36028797018963968) (3152519739159347 / 9007199254740992) (-2) 6305039478318694 (by norm_num) (by norm_num)
        (by norm_num) (by norm_num) (by norm_num) (by norm_num),
      fl_val (7 / 20) (3152519739159347 / 9007199254740992) (-2) 6305039478318694 (by norm_num) (by norm_num) (by norm_num)
        (by norm_num) (by norm_num) (by norm_num)]
  · have a : ((10 % 8 : ℕ) : ℚ) / 4 + tenths (10 / 8) = 21617278211378381 / 36028797018963968 := by norm_num [tenths_one]
    have b : ((10 % 8 : ℕ) : ℚ) * (1 / 4) + ((10 / 8 : ℕ) : ℚ) * (1 / 10) = 3 / 5 := by norm_num
    rw [a, b, fl_val (21617278211378381 / 36028797018963968) (5404319552844595 / 9007199254740992) (-1) 5404319552844595 (by norm_num) (by norm_num) (by norm_num)
        (by norm_num) (by norm_num) (by norm_num),
      fl_val (3 / 5) (5404319552844595 / 9007199254740992) (-1) 5404319552844595 (by norm_num) (by norm_num) (by norm_num)
        (by norm_num) (by norm_num) (by norm_num)]
  · have a : ((11 % 8 : ℕ) : ℚ) / 4 + tenths (11 / 8) = 30624477466119373 / 36028797018963968 := by norm_num [tenths_one]
    have b : ((11 % 8 : ℕ) : ℚ) * (1 / 4) + ((11 / 8 : ℕ) : ℚ) * (1 / 10) = 17 / 20 := by norm_num
    rw [a, b, fl_val (30624477466119373 / 36028797018963968) (7656119366529843 / 9007199254740992) (-1) 7656119366529843 (by norm_num) (by norm_num) (by norm_num)
        (by norm_num) (by norm_num) (by norm_num),
      fl_val (17 / 20) (7656119366529843 / 9007199254740992) (-1) 7656119366529843 (by norm_num) (by norm_num) (by norm_num)
        (by norm_num) (by norm_num) (by norm_num)]
  · have a : ((12 % 8 : ℕ) : ℚ) / 4 + tenths (12 / 8) = 39631676720860365 / 36028797018963968 := by norm_num [tenths_one]
    have b : ((12 % 8 : ℕ) : ℚ) * (1 / 4) + ((12 / 8 : ℕ) : ℚ) * (1 / 10) = 11 / 10 := by norm_num
    rw [a, b, fl_val (39631676720860365 / 36028797018963968) (2476979795053773 / 2251799813685248) (0) 4953959590107546 (by norm_num) (by norm_num) (by norm_num)
        (by norm_num) (by norm_num) (by norm_num),
      fl_val (11 / 10) (2476979795053773 / 2251799813685248) (0) 4953959590107546 (by norm_num) (by norm_num) (by norm_num)
        (by norm_num) (by norm_num) (by norm_num)]
  · have a : ((13 % 8 : ℕ) : ℚ) / 4 + tenths (13 / 8) = 48638875975601357 / 36028797018963968 := by norm_num [tenths_one]
    have b : ((13 % 8 : ℕ) : ℚ) * (1 / 4) + ((13 / 8 : ℕ) : ℚ) * (1 / 10) = 27 / 20 := by norm_num
    rw [a, b, fl_val (48638875975601357 / 36028797018963968) (3039929748475085 / 2251799813685248) (0) 6079859496950170 (by norm_num) (by norm_num) (by norm_num)
        (by norm_num) (by norm_num) (by norm_num),
      fl_val (27 / 20) (3039929748475085 / 2251799813685248) (0) 6079859496950170 (by norm_num) (by norm_num) (by norm_num)
        (by norm_num) (by norm_num) (by norm_num)]
  · have a : ((14 % 8 : ℕ) : ℚ) / 4 + tenths (14 / 8) = 57646075230342349 / 36028797018963968 := by norm_num [tenths_one]
    have b : ((14 % 8 : ℕ) : ℚ) * (1 / 4) + ((14 / 8 : ℕ) : ℚ) * (1 / 10) = 8 / 5 := by norm_num
    rw [a, b, fl_val (57646075230342349 / 36028797018963968) (3602879701896397 / 2251799813685248) (0) 7205759403792794 (by norm_num) (by norm_num) (by norm_num)
        (by norm_num) (by norm_num) (by norm_num),
      fl_val (8 / 5) (3602879701896397 / 2251799813685248) (0) 7205759403792794 (by norm_num) (by norm_num) (by norm_num)
        (by norm_num) (by norm_num) (by norm_num)]
  · have a : ((15 % 8 : ℕ) : ℚ) / 4 + tenths (15 / 8) = 66653274485083341 / 36028797018963968 := by norm_num [tenths_one]
    have b : ((15 % 8 : ℕ) : ℚ) * (1 / 4) + ((15 / 8 : ℕ) : ℚ) * (1 / 10) = 37 / 20 := by norm_num
    rw [a, b, fl_val (66653274485083341 / 36028797018963968) (4165829655317709 / 2251799813685248) (0) 8331659310635418 (by norm_num) (by norm_num) (by norm_num)
        (by norm_num) (by norm_num) (by norm_num),
      fl_val (37 / 20) (4165829655317709 / 2251799813685248) (0) 8331659310635418 (by norm_num) (by norm_num) (by norm_num)
        (by norm_num) (by norm_num) (by norm_num)]
  · have a : ((16 % 8 : ℕ) : ℚ) / 4 + tenths (16 / 8) = 3602879701896397 / 18014398509481984 := by norm_num [tenths_two]
    have b : ((16 % 8 : ℕ) : ℚ) * (1 / 4) + ((16 / 8 : ℕ) : ℚ) * (1 / 10) = 1 / 5 := by norm_num
    rw [a, b, fl_val (3602879701896397 / 18014398509481984) (3602879701896397 / 18014398509481984) (-3) 7205759403792794 (by norm_num) (by norm_num) (by norm_num)
        (by norm_num) (by norm_num) (by norm_num),
      fl_val (1 / 5) (3602879701896397 / 18014398509481984) (-3) 7205759403792794 (by norm_num) (by norm_num) (by norm_num)
        (by norm_num) (by norm_num) (by norm_num)]
  · have a : ((17 % 8 : ℕ) : ℚ) / 4 + tenths (17 / 8) = 8106479329266893 / 18014398509481984 := by norm_num [tenths_two]
    have b : ((17 % 8 : ℕ) : ℚ) * (1 / 4) + ((17 / 8 : ℕ) : ℚ) * (1 / 10) = 9 / 20 := by norm_num
    rw [a, b, fl_val (8106479329266893 / 18014398509481984) (8106479329266893 / 18014398509481984) (-2) 8106479329266893 (by norm_num) (by norm_num) (by norm_num)
        (by norm_num) (by norm_num) (by norm_num),
      fl_val (9 / 20) (8106479329266893 / 18014398509481984) (-2) 8106479329266893 (by norm_num) (by norm_num) (by norm_num)
        (by norm_num) (by norm_num) (by norm_num)]
  · have a : ((18 % 8 : ℕ) : ℚ) / 4 + tenths (18 / 8) = 12610078956637389 / 18014398509481984 := by norm_num [tenths_two]
    have b : ((18 % 8 : ℕ) : ℚ) * (1 / 4) + ((18 / 8 : ℕ) : ℚ) * (1 / 10) = 7 / 10 := by norm_num
    rw [a, b, fl_val_tie_even (12610078956637389 / 18014398509481984) (3152519739159347 / 4503599627370496) (-1) 6305039478318694 (by norm_num) (by norm_num)
        (by norm_num) (by norm_num) (by norm_num) (by norm_num),
      fl_val (7 / 10) (3152519739159347 / 4503599627370496) (-1) 6305039478318694 (by norm_num) (by norm_num) (by norm_num)
        (by norm_num) (by norm_num) (by norm_num)]
  · have a : ((19 % 8 : ℕ) : ℚ) / 4 + tenths (19 / 8) = 17113678584007885 / 18014398509481984 := by norm_num [tenths_two]
    have b : ((19 % 8 : ℕ) : ℚ) * (1 / 4) + ((19 / 8 : ℕ) : ℚ) * (1 / 10) = 19 / 20 := by norm_num
    rw [a, b, fl_val_tie_even (17113678584007885 / 18014398509481984) (4278419646001971 / 4503599627370496) (-1) 8556839292003942 (by norm_num) (by norm_num)
        (by norm_num) (by norm_num) (by norm_num) (by norm_num),
      fl_val (19 / 20) (4278419646001971 / 4503599627370496) (-1) 8556839292003942 (by norm_num) (by norm_num) (by norm_num)
        (by norm_num) (by norm_num) (by norm_num)]

theorem abs_fl_sub_le_of_lt (x : ℚ) (k : Int) (hk : -1022 ≤ k) (h : |x| < (2 : ℚ) ^ (k + 1)) :
    |fl x - x| ≤ (2 : ℚ) ^ (k - 53) := by
  have h1 := abs_fl_sub_le x
  have h2 := ulp_le x k hk h
  have e : (2 : ℚ) ^ (k - 52) = 2 * (2 : ℚ) ^ (k - 53) := by
    rw [show k - 52 = 1 + (k - 53) by ring, zpow_add₀ (by norm_num)]
    norm_num
  linarith

/-- Adding two summands that are more than 1/16 apart to a double of magnitude
at most `2^48` gives two different doubles, in the same order. -/
theorem fadd_lt_fadd (d a b : ℚ) (hd : |d| ≤ 2 ^ 48) (ha : 0 ≤ a) (hb : b ≤ 1)
    (hab : a + 1 / 16 < b) : fadd d a < fadd d b := by
  have hd2 := abs_le.mp hd
  have bound : ∀ c : ℚ, 0 ≤ c → c ≤ 1 → |fl (d + c) - (d + c)| ≤ 1 / 32 := by
    intro c hc0 hc1
    have hlt : |d + c| < (2 : ℚ) ^ ((48 : Int) + 1) := by
      rw [abs_lt]
      norm_num
      constructor <;> linarith
    have := abs_fl_sub_le_of_lt (d + c) 48 (by norm_num) hlt
    norm_num at this
    exact this
  have h1 := abs_le.mp (bound a ha (by linarith))
  have h2 := abs_le.mp (bound b (by linarith) hb)
  unfold fadd
  linarith [h1.2, h2.1]

theorem fl_delayD (i : Nat) : fl (delayD i) = delayD i := by
  unfold delayD fadd
  exact fl_fl _

theorem delay_range (i : Nat) (h : i < 20) : 0 ≤ delay i ∧ delay i ≤ 37 / 20 := by
  rw [delay_eq]
  have h1 : i % 8 ≤ 7 := by omega
  have h2 : i / 8 ≤ 2 := by omega
  have h3 : i / 8 = 2 → i % 8 ≤ 3 := by omega
  have q1 : ((i % 8 : Nat) : ℚ) ≤ 7 := by exact_mod_cast h1
  have q2 : ((i / 8 : Nat) : ℚ) ≤ 2 := by exact_mod_cast h2
  refine ⟨by positivity, ?_⟩
  rcases Nat.lt_or_ge (i / 8) 2 with h4 | h4
  · have q3 : ((i / 8 : Nat) : ℚ) ≤ 1 := by exact_mod_cast (by omega : i / 8 ≤ 1)
    linarith
  · have q3 : ((i % 8 : Nat) : ℚ) ≤ 3 := by exact_mod_cast (h3 (by omega))
    linarith

theorem abs_delayD_le (i : Nat) (h : i < 20) : |delayD i| ≤ 2 := by
  rw [delayD_eq_fl_delay i h]
  have hr := delay_range i h
  have hlt : |delay i| < (2 : ℚ) ^ ((0 : Int) + 1) := by
    rw [abs_lt]
    norm_num
    constructor <;> linarith [hr.1, hr.2]
  have hb := abs_fl_sub_le_of_lt (delay i) 0 (by norm_num) hlt
  have e : (2 : ℚ) ^ ((0 : Int) - 53) ≤ 1 / 20 := by norm_num
  have hb2 := abs_le.mp (le_trans hb e)
  rw [abs_le]
  constructor <;> linarith [hb2.1, hb2.2, hr.1, hr.2]

theorem delayD_zero : delayD 0 = 0 := by
  rw [delayD_unfold 0 (by norm_num)]
  norm_num [tenths_zero, fl_zero]

theorem fadd_zero_of_isDouble (d : ℚ) (h : fl d = d) : fadd d (tenths 0) = d := by
  unfold fadd
  rw [tenths_zero, add_zero, h]

theorem tenths_step (idx idx' : Nat) (h : idx < idx') (h3 : idx' ≤ 3) :
    0 ≤ tenths idx ∧ tenths idx' ≤ 1 ∧ tenths idx + 1 / 16 < tenths idx' := by
  interval_cases idx' <;> interval_cases idx <;>
    norm_num [tenths_zero, tenths_one, tenths_two, tenths_three]

theorem delayD_isDouble (i : Nat) (h : i < 20) : IsDouble (delayD i) := by
  refine ⟨fl_delayD i, lt_of_le_of_lt (abs_delayD_le i h) ?_⟩
  norm_num

theorem startOffsets_eq (size hue : Int) (delay : ℚ) :
    (Tulip size hue delay true).startOffsets =
      [some delay, some (fadd delay (tenths 0)), some (fadd delay (tenths 1)),
       some (fadd delay (tenths 2)), some (fadd delay (tenths 3))] := rfl

theorem fadd_tenths_lt (delay : ℚ) (hd : |delay| ≤ 2 ^ 48) (a b : Nat) (hab : a < b)
    (hb : b ≤ 3) : fadd delay (tenths a) < fadd delay (tenths b) := by
  have := tenths_step a b hab hb
  exact fadd_lt_fadd delay _ _ hd this.1 this.2.1 this.2.2

/-- For a delay of magnitude at most `2^48` the four petal-like parts have
pairwise distinct start offsets. -/
theorem startOffsets_tail_nodup (size hue : Int) (delay : ℚ) (hd : |delay| ≤ 2 ^ 48) :
    (Tulip size hue delay true).startOffsets.tail.Nodup := by
  rw [startOffsets_eq]
  have h01 := fadd_tenths_lt delay hd 0 1 (by norm_num) (by norm_num)
  have h02 := fadd_tenths_lt delay hd 0 2 (by norm_num) (by norm_num)
  have h03 := fadd_tenths_lt delay hd 0 3 (by norm_num) (by norm_num)
  have h12 := fadd_tenths_lt delay hd 1 2 (by norm_num) (by norm_num)
  have h13 := fadd_tenths_lt delay hd 1 3 (by norm_num) (by norm_num)
  have h23 := fadd_tenths_lt delay hd 2 3 (by norm_num) (by norm_num)
  simp [List.nodup_cons, h01.ne, h02.ne, h03.ne, h12.ne, h13.ne, h23.ne]

/-- For a delay that is a double the stem and petal 0 share the start offset. -/
theorem startOffsets_not_nodup (size hue : Int) (delay : ℚ) (hd : fl delay = delay) :
    ¬ (Tulip size hue delay true).startOffsets.Nodup := by
  rw [startOffsets_eq, fadd_zero_of_isDouble delay hd]
  intro h
  exact (List.nodup_cons.mp h).1 (List.mem_cons_self _ _)

/-! ## Auxiliary lemmas: the bloom state machine -/

theorem inv_mount : Inv mount := by
  right
  decide

theorem inv_step (e : Event) (s s' : State) (hs : Inv s) (h : step e s = some s') :
    Inv s' := by
  cases e with
  | timerFire =>
    simp only [step] at h
    split at h
    · cases h
      rcases hs with h0 | ⟨h1, _⟩
      · left; simp [h0]
      · left; simp [h1]
    · cases h
  | buttonPress =>
    simp only [step] at h
    split at h
    · cases h
      exact hs
    · cases h
  | unmount =>
    simp only [step] at h
    split at h
    · cases h
      rcases hs with h0 | ⟨h1, _⟩
      · left; simp [clearTimeout, h0]
      · left; simp [clearTimeout, h1]
    · cases h

theorem inv_run (es : List Event) : ∀ (s s' : State), Inv s → run es s = some s' → Inv s' := by
  induction es with
  | nil =>
    intro s s' hs h
    simp only [run] at h
    cases h
    exact hs
  | cons e es ih =>
    intro s s' hs h
    simp only [run] at h
    cases h1 : step e s with
    | none => rw [h1] at h; cases h
    | some s1 =>
      rw [h1] at h
      exact ih s1 s' (inv_step e s s1 hs h1) h

theorem step_timers_length (e : Event) (s s' : State) (h : step e s = some s') :
    s'.timers.length + (if e = Event.timerFire then 1 else 0) ≤ s.timers.length := by
  cases e with
  | timerFire =>
    simp only [step] at h
    split at h
    · rename_i hm
      cases h
      have := List.length_pos_of_mem hm
      simp [List.length_erase_of_mem hm]
      omega
    · cases h
  | buttonPress =>
    simp only [step] at h
    split at h
    · cases h; simp
    · cases h
  | unmount =>
    simp only [step] at h
    split at h
    · cases h
      simp [clearTimeout, List.length_erase]
      split <;> omega
    · cases h

theorem run_count_fire (es : List Event) :
    ∀ (s s' : State), run es s = some s' →
      es.count Event.timerFire + s'.timers.length ≤ s.timers.length := by
  induction es with
  | nil =>
    intro s s' h
    simp only [run] at h
    cases h
    simp
  | cons e es ih =>
    intro s s' h
    simp only [run] at h
    cases h1 : step e s with
    | none => rw [h1] at h; cases h
    | some s1 =>
      rw [h1] at h
      have a := ih s1 s' h
      have b := step_timers_length e s s1 h1
      rw [List.count_cons]
      by_cases he : e = Event.timerFire
      · subst he
        simp at b ⊢
        omega
      · have he' : (e == Event.timerFire) = false := by simpa using he
        simp [he, he'] at b ⊢
        omega

theorem step_bloom_of_not_press (e : Event) (s s' : State) (he : e ≠ Event.buttonPress)
    (h : step e s = some s') : s'.bloom = true ∨ s'.bloom = s.bloom := by
  cases e with
  | timerFire =>
    simp only [step] at h
    split at h
    · cases h; left; rfl
    · cases h
  | buttonPress => exact absurd rfl he
  | unmount =>
    simp only [step] at h
    split at h
    · cases h; right; rfl
    · cases h

theorem run_stays_bloomed (es : List Event) :
    ∀ (s s' : State), Event.buttonPress ∉ es → s.bloom = true → run es s = some s' →
      s'.bloom = true := by
  induction es with
  | nil =>
    intro s s' _ hb h
    simp only [run] at h
    cases h
    exact hb
  | cons e es ih =>
    intro s s' hp hb h
    simp only [run] at h
    have hp1 : e ≠ Event.buttonPress := fun c => hp (by simp [c])
    have hp2 : Event.buttonPress ∉ es := fun c => hp (by simp [c])
    cases h1 : step e s with
    | none => rw [h1] at h; cases h
    | some s1 =>
      rw [h1] at h
      refine ih s1 s' hp2 ?_ h
      rcases step_bloom_of_not_press e s s1 hp1 h1 with h2 | h2
      · exact h2
      · rw [h2]; exact hb

theorem run_bloomed_after_fire (es : List Event) :
    ∀ (s s' : State), Event.buttonPress ∉ es → Event.timerFire ∈ es → run es s = some s' →
      s'.bloom = true := by
  induction es with
  | nil =>
    intro s s' _ hf _
    simp at hf
  | cons e es ih =>
    intro s s' hp hf h
    simp only [run] at h
    have hp2 : Event.buttonPress ∉ es := fun c => hp (by simp [c])
    cases h1 : step e s with
    | none => rw [h1] at h; cases h
    | some s1 =>
      rw [h1] at h
      by_cases he : e = Event.timerFire
      · subst he
        refine run_stays_bloomed es s1 s' hp2 ?_ h
        simp only [step] at h1
        split at h1
        · cases h1; rfl
        · cases h1
      · have hf2 : Event.timerFire ∈ es := by
          rcases List.mem_cons.mp hf with c | c
          · exact absurd c.symm he
          · exact c
        exact ih s1 s' hp2 hf2 h

theorem step_none_of_unmounted (e : Event) (s : State) (hs : Inv s) (hm : s.mounted = false) :
    step e s = none := by
  have ht : s.timers = [] := by
    rcases hs with h0 | ⟨_, h1⟩
    · exact h0
    · rw [hm] at h1; cases h1
  cases e <;> simp [step, ht, hm]

/-! ## Properties -/

/-- C1: the updater `(s) => !s` run by the button is an involution on the bloom state.
Applying it twice returns the value it started from (Dormant to Dormant, Bloomed
to Bloomed), a single application always gives the opposite value, and on a
mounted view two button presses lead back to the very same state. -/
theorem toggle_involution (b : Bool) (s : State) :
    toggle (toggle b) = b ∧ toggle b = (!b) ∧ toggle b ≠ b ∧
    toggle (toggle false) = false ∧ toggle (toggle true) = true ∧
    (s.mounted = true →
      step Event.buttonPress s = some { s with bloom := !s.bloom } ∧
      run [Event.buttonPress, Event.buttonPress] s = some s) := by
  refine ⟨?_, rfl, ?_, rfl, rfl, ?_⟩
  · cases b <;> rfl
  · cases b <;> simp [toggle]
  · intro hm
    cases s with
    | mk bl ts m t =>
      simp only at hm
      subst hm
      cases bl <;> simp [run, step, toggle]

theorem toggle_involution_witness :
    mount.mounted = true ∧
    run [Event.buttonPress, Event.buttonPress] mount = some mount :=
  ⟨by decide, ((toggle_involution false mount).2.2.2.2.2 (by decide)).2⟩

/-- C2: the state after mounting has `bloom = false` and exactly one pending
timer. The timer-fire step sets `bloom` to `true` whatever its current value and
removes the timer from the queue; in a reachable state no timer is left after
it. Hence every run from the mounted state contains at most one timer-fire, and
a run without a button press that contains the timer-fire ends Bloomed, however
it continues. The timer-fire step is enabled right after mounting. -/
theorem bloom_timer_fires_at_most_once (es : List Event) (s s' : State) :
    mount.bloom = false ∧ mount.timers.length = 1 ∧
    (step Event.timerFire s = some s' →
      s'.bloom = true ∧ s'.timers = s.timers.erase s.t ∧
      s'.timers.length + 1 = s.timers.length) ∧
    (run es mount = some s → step Event.timerFire s = some s' → s'.timers = []) ∧
    (run es mount = some s → es.count Event.timerFire ≤ 1) ∧
    (run es mount = some s → Event.buttonPress ∉ es → Event.timerFire ∈ es →
      s.bloom = true) ∧
    run [Event.timerFire] mount = some { mount with bloom := true, timers := [] } := by
  refine ⟨by decide, by decide, ?_, ?_, ?_, ?_, by decide⟩
  · intro h
    simp only [step] at h
    split at h
    · rename_i hm
      cases h
      have := List.length_pos_of_mem hm
      refine ⟨rfl, rfl, ?_⟩
      simp only [List.length_erase_of_mem hm]
      omega
    · cases h
  · intro hr h
    have hl := step_timers_length _ _ _ h
    rcases inv_run es mount s inv_mount hr with h0 | ⟨h1, _⟩
    · rw [h0] at hl; simp at hl
    · rw [h1] at hl
      simp at hl
      exact hl
  · intro hr
    have := run_count_fire es mount s hr
    have hm : mount.timers.length = 1 := by decide
    omega
  · intro hr hp hf
    exact run_bloomed_after_fire es mount s hp hf hr

theorem bloom_timer_fires_at_most_once_witness :
    (({ mount with bloom := true, timers := [] } : State).bloom = true ∧
      ({ mount with bloom := true, timers := [] } : State).timers = mount.timers.erase mount.t ∧
      ({ mount with bloom := true, timers := [] } : State).timers.length + 1 =
        mount.timers.length) ∧
    ({ mount with bloom := true, timers := [] } : State).timers = [] ∧
    [Event.timerFire, Event.unmount].count Event.timerFire ≤ 1 ∧
    ({ mount with bloom := true, timers := [], mounted := false } : State).bloom = true :=
  ⟨(bloom_timer_fires_at_most_once [] mount
      { mount with bloom := true, timers := [] }).2.2.1 (by decide),
   (bloom_timer_fires_at_most_once [Event.buttonPress]
      { mount with bloom := true }
      { mount with bloom := true, timers := [] }).2.2.2.1 (by decide) (by decide),
   (bloom_timer_fires_at_most_once [Event.timerFire, Event.unmount]
      { mount with bloom := true, timers := [], mounted := false }
      mount).2.2.2.2.1 (by decide),
   (bloom_timer_fires_at_most_once [Event.timerFire, Event.unmount]
      { mount with bloom := true, timers := [], mounted := false }
      mount).2.2.2.2.2.1 (by decide) (by decide) (by decide)⟩

/-- C3: unmounting runs the effect cleanup `clearTimeout(t)` and leaves `bloom`
as it was; from a reachable state it leaves no timer pending. In every
reachable state where the view is unmounted no timer is pending, the timer-fire
step is not enabled, and whatever events follow, `bloom` keeps its value.
Unmounting right after mounting is enabled and disables the timer-fire. -/
theorem unmount_cancels_timer (es es' : List Event) (s s' : State) :
    (step Event.unmount s = some s' →
      s'.timers = clearTimeout s.t s.timers ∧ s'.mounted = false ∧ s'.bloom = s.bloom) ∧
    (run es mount = some s → step Event.unmount s = some s' → s'.timers = []) ∧
    (run es mount = some s → s.mounted = false →
      s.timers = [] ∧ step Event.timerFire s = none ∧
      (run es' s = some s' → s'.bloom = s.bloom)) ∧
    run [Event.unmount] mount = some { mount with mounted := false, timers := [] } ∧
    run [Event.unmount, Event.timerFire] mount = none := by
  refine ⟨?_, ?_, ?_, by decide, by decide⟩
  · intro h
    simp only [step] at h
    split at h
    · cases h
      exact ⟨rfl, rfl, rfl⟩
    · cases h
  · intro hr h
    have hi := inv_step _ _ _ (inv_run es mount s inv_mount hr) h
    have hm : s'.mounted = false := by
      simp only [step] at h
      split at h
      · cases h; rfl
      · cases h
    rcases hi with h0 | ⟨_, h1⟩
    · exact h0
    · rw [hm] at h1; cases h1
  · intro hr hm
    have hi := inv_run es mount s inv_mount hr
    have ht : s.timers = [] := by
      rcases hi with h0 | ⟨_, h1⟩
      · exact h0
      · rw [hm] at h1; cases h1
    refine ⟨ht, step_none_of_unmounted _ s hi hm, ?_⟩
    intro h
    cases es' with
    | nil =>
      simp only [run] at h
      cases h
      rfl
    | cons e rest =>
      simp only [run] at h
      rw [step_none_of_unmounted e s hi hm] at h
      cases h

theorem unmount_cancels_timer_witness :
    (({ mount with mounted := false, timers := [] } : State).timers =
        clearTimeout mount.t mount.timers ∧
      ({ mount with mounted := false, timers := [] } : State).mounted = false ∧
      ({ mount with mounted := false, timers := [] } : State).bloom = mount.bloom) ∧
    ({ mount with bloom := true, mounted := false, timers := [] } : State).timers = [] ∧
    (({ mount with mounted := false, timers := [] } : State).timers = [] ∧
      step Event.timerFire { mount with mounted := false, timers := [] } = none ∧
      ({ mount with mounted := false, timers := [] } : State).bloom =
        ({ mount with mounted := false, timers := [] } : State).bloom) :=
  ⟨(unmount_cancels_timer [] [] mount
      { mount with mounted := false, timers := [] }).1 (by decide),
   (unmount_cancels_timer [Event.buttonPress] []
      { mount with bloom := true }
      { mount with bloom := true, mounted := false, timers := [] }).2.1
      (by decide) (by decide),
   (unmount_cancels_timer [Event.unmount] []
      { mount with mounted := false, timers := [] }
      { mount with mounted := false, timers := [] }).2.2.1 (by decide) (by decide)
    |> fun h => ⟨h.1, h.2.1, h.2.2 (by decide)⟩⟩

/-- C4: for every index `i`, `left i = 4 + (5 * i mod 94)` lies in `[0, 100)`
and `hue i = 310 - (12 * i mod 160)` lies in `[0, 360)`, never negative and
inside the arc `[151, 310]`; this holds for each of the 20 generated tulips, and
index 0 gives `left = 4` and `hue = 310`. -/
theorem layout_left_hue_ranges (i : Nat) :
    left i = 4 + (((5 * i % 94 : Nat)) : Int) ∧ 0 ≤ left i ∧ left i < 100 ∧
    hue i = 310 - (((12 * i % 160 : Nat)) : Int) ∧ 0 ≤ hue i ∧ hue i < 360 ∧
    151 ≤ hue i ∧ hue i ≤ 310 ∧
    tulips.length = 20 ∧
    (∀ p ∈ tulips, 0 ≤ p.left ∧ p.left < 100 ∧ 151 ≤ p.hue ∧ p.hue ≤ 310) ∧
    left 0 = 4 ∧ hue 0 = 310 := by
  have key : ∀ k : Nat, 0 ≤ left k ∧ left k < 100 ∧ 151 ≤ hue k ∧ hue k ≤ 310 := by
    intro k
    have hl := left_eq k
    have hh := hue_eq k
    have h1 : 5 * k % 94 < 94 := Nat.mod_lt _ (by norm_num)
    have h2 : 12 * k % 160 < 160 := Nat.mod_lt _ (by norm_num)
    omega
  have hk := key i
  refine ⟨left_eq i, hk.1, hk.2.1, hue_eq i, ?_, ?_, hk.2.2.1, hk.2.2.2, ?_, ?_,
    by decide, by decide⟩
  · omega
  · omega
  · simp [tulips]
  · intro p hp
    simp only [tulips, List.mem_map] at hp
    obtain ⟨k, _, rfl⟩ := hp
    exact key k

theorem layout_left_hue_ranges_witness :
    0 ≤ (mkTulip 7).left ∧ (mkTulip 7).left < 100 ∧
    151 ≤ (mkTulip 7).hue ∧ (mkTulip 7).hue ≤ 310 :=
  (layout_left_hue_ranges 7).2.2.2.2.2.2.2.2.2.1 (mkTulip 7)
    (List.mem_map.mpr ⟨7, by decide, rfl⟩)

/-- C5: with `delay i = (i mod 8) * 0.25 + floor(i / 8) * 0.1` over exact
rationals, `delay (i + 1) = delay i + 0.25` whenever `i mod 8 ≠ 7`,
`delay (i + 1) < delay i` whenever `i mod 8 = 7`, and `0 ≤ delay i ≤ 1.85` for
every `i < 20`; `delay 8 = 0.1` lies below `delay 7 = 1.75`. -/
theorem delay_staggered_wave (i : Nat) :
    delay i = ((i % 8 : Nat) : ℚ) * (1 / 4) + ((i / 8 : Nat) : ℚ) * (1 / 10) ∧
    (i % 8 ≠ 7 → delay (i + 1) = delay i + 1 / 4) ∧
    (i % 8 = 7 → delay (i + 1) < delay i) ∧
    (i < 20 → 0 ≤ delay i ∧ delay i ≤ 37 / 20 ∧ delay i < 2) ∧
    delay 7 = 7 / 4 ∧ delay 8 = 1 / 10 ∧ delay 8 < delay 7 := by
  refine ⟨delay_eq i, ?_, ?_, ?_, ?_, ?_, ?_⟩
  · intro h
    rw [delay_eq, delay_eq]
    have h1 : (i + 1) % 8 = i % 8 + 1 := by omega
    have h2 : (i + 1) / 8 = i / 8 := by omega
    rw [h1, h2]
    push_cast
    ring
  · intro h
    rw [delay_eq, delay_eq]
    have h1 : (i + 1) % 8 = 0 := by omega
    have h2 : (i + 1) / 8 = i / 8 + 1 := by omega
    rw [h1, h2, h]
    push_cast
    linarith
  · intro h
    rw [delay_eq]
    have h1 : i % 8 ≤ 7 := by omega
    have h2 : i / 8 ≤ 2 := by omega
    have h3 : i / 8 = 2 → i % 8 ≤ 3 := by omega
    have q1 : ((i % 8 : Nat) : ℚ) ≤ 7 := by exact_mod_cast h1
    have q2 : ((i / 8 : Nat) : ℚ) ≤ 2 := by exact_mod_cast h2
    have hub : ((i % 8 : Nat) : ℚ) * (1 / 4) + ((i / 8 : Nat) : ℚ) * (1 / 10) ≤ 37 / 20 := by
      rcases Nat.lt_or_ge (i / 8) 2 with h4 | h4
      · have q3 : ((i / 8 : Nat) : ℚ) ≤ 1 := by exact_mod_cast (by omega : i / 8 ≤ 1)
        linarith
      · have q3 : ((i % 8 : Nat) : ℚ) ≤ 3 := by exact_mod_cast (h3 (by omega))
        linarith
    refine ⟨by positivity, hub, ?_⟩
    linarith
  · rw [delay_eq]; norm_num
  · rw [delay_eq]; norm_num
  · rw [delay_eq, delay_eq]; norm_num

theorem delay_staggered_wave_witness :
    delay (3 + 1) = delay 3 + 1 / 4 ∧ delay (7 + 1) < delay 7 ∧
    (0 ≤ delay 15 ∧ delay 15 ≤ 37 / 20 ∧ delay 15 < 2) :=
  ⟨(delay_staggered_wave 3).2.1 (by decide), (delay_staggered_wave 7).2.2.1 (by decide),
   (delay_staggered_wave 15).2.2.2.1 (by decide)⟩

/-- C6 (as stated, refuted): for the tulip of index 0 (size 100, hue 310, delay 0)
with `bloom = true` the start offsets of the five animated parts are not pairwise
distinct, because the stem and petal 0 both start at `delay`; and at the delay
`10^16` rounding absorbs the stagger, so that even the petal parts share one
start offset. -/
theorem part_offsets_not_all_distinct :
    ¬ (Tulip 100 310 0 true).startOffsets.Nodup ∧
    ¬ (Tulip 100 310 (10 ^ 16) true).startOffsets.tail.Nodup := by
  have h1 : fadd (10 ^ 16) (tenths 1) = 10 ^ 16 := by
    rw [tenths_one]
    unfold fadd
    exact fl_val _ _ 53 5000000000000000 (by norm_num) (by norm_num) (by norm_num)
      (by norm_num) (by norm_num) (by norm_num)
  have h2 : fadd (10 ^ 16) (tenths 2) = 10 ^ 16 := by
    rw [tenths_two]
    unfold fadd
    exact fl_val _ _ 53 5000000000000000 (by norm_num) (by norm_num) (by norm_num)
      (by norm_num) (by norm_num) (by norm_num)
  constructor
  · exact startOffsets_not_nodup 100 310 0 fl_zero
  · intro h
    rw [startOffsets_eq, h1, h2] at h
    have h' := (List.nodup_cons.mp h).2
    exact (List.nodup_cons.mp h').1 (List.mem_cons_self _ _)

/-- C6 (amended): with `bloom = true` and any `delay`, the stem animation starts
at `delay` and the part of index `idx` starts at `delay + idx * 0.1` as computed
in double arithmetic. For a `delay` that is a finite double the five start
offsets are `delay`, `delay`, `delay + 0.1`, `delay + 0.2` and
`delay + 0.30000000000000004` (each sum rounded), so the stem and petal 0 start
together. For a `delay` of magnitude at most `2^48` the three petals and the
highlight have pairwise distinct offsets that grow strictly with the part index.
Each of the 20 generated delays is a finite double of magnitude at most 2, so
every tulip the garden renders has four pairwise distinct petal offsets and a
stem that starts with petal 0; for the tulip of index 0 the offsets are 0, 0,
0.1, 0.2 and 0.30000000000000004 as doubles. -/
theorem part_offsets_staggered (size hue : Int) (delay : ℚ) (idx idx' i : Nat) :
    (stemStyle size delay true).animation.map Animation.delay = some delay ∧
    (petalCommon delay true idx).map Animation.delay =
      some (fadd delay (fmul (idx : ℚ) (lit (1 / 10)))) ∧
    (IsDouble delay →
      (Tulip size hue delay true).startOffsets =
        [some delay, some delay,
         some (fl (delay + 3602879701896397 / 36028797018963968)),
         some (fl (delay + 3602879701896397 / 18014398509481984)),
         some (fl (delay + 1351079888211149 / 4503599627370496))]) ∧
    (|delay| ≤ 2 ^ 48 → (Tulip size hue delay true).startOffsets.tail.Nodup) ∧
    (|delay| ≤ 2 ^ 48 → idx < idx' → idx' ≤ 3 →
      fadd delay (fmul (idx : ℚ) (lit (1 / 10))) <
        fadd delay (fmul (idx' : ℚ) (lit (1 / 10)))) ∧
    (i < 20 → IsDouble (delayD i) ∧ |delayD i| ≤ 2) ∧
    (∀ v ∈ render true, v.startOffsets.tail.Nodup ∧ ¬ v.startOffsets.Nodup) ∧
    (Tulip (TulipGarden.size 0) (TulipGarden.hue 0) (delayD 0) true).startOffsets =
      [some 0, some 0, some (3602879701896397 / 36028797018963968),
       some (3602879701896397 / 18014398509481984),
       some (1351079888211149 / 4503599627370496)] := by
  refine ⟨rfl, rfl, ?_, ?_, ?_, ?_, ?_, ?_⟩
  · intro hd
    rw [startOffsets_eq, fadd_zero_of_isDouble delay hd.1]
    unfold fadd
    rw [tenths_one, tenths_two, tenths_three]
  · intro hd
    exact startOffsets_tail_nodup size hue delay hd
  · intro hd hlt h3
    exact fadd_tenths_lt delay hd idx idx' hlt h3
  · intro hi
    exact ⟨delayD_isDouble i hi, abs_delayD_le i hi⟩
  · intro v hv
    simp only [render, tulips, List.map_map, List.mem_map, List.mem_range,
      Function.comp_apply] at hv
    obtain ⟨k, hk, rfl⟩ := hv
    have hd : |delayD k| ≤ 2 ^ 48 := le_trans (abs_delayD_le k hk) (by norm_num)
    exact ⟨startOffsets_tail_nodup _ _ _ hd, startOffsets_not_nodup _ _ _ (fl_delayD k)⟩
  · rw [delayD_zero, startOffsets_eq, fadd_zero_of_isDouble 0 fl_zero]
    unfold fadd
    rw [zero_add, zero_add, zero_add]
    have t1 := tenths_one
    have t2 := tenths_two
    have t3 := tenths_three
    unfold tenths fmul at t1 t2 t3 ⊢
    rw [fl_fl, fl_fl, fl_fl, t1, t2, t3]

theorem part_offsets_staggered_witness :
    (Tulip 100 310 (delayD 8) true).startOffsets =
      [some (delayD 8), some (delayD 8),
       some (fl (delayD 8 + 3602879701896397 / 36028797018963968)),
       some (fl (delayD 8 + 3602879701896397 / 18014398509481984)),
       some (fl (delayD 8 + 1351079888211149 / 4503599627370496))] ∧
    (Tulip 100 310 (delayD 8) true).startOffsets.tail.Nodup ∧
    fadd (delayD 8) (fmul ((1 : Nat) : ℚ) (lit (1 / 10))) <
      fadd (delayD 8) (fmul ((3 : Nat) : ℚ) (lit (1 / 10))) ∧
    (IsDouble (delayD 8) ∧ |delayD 8| ≤ 2) ∧
    ((Tulip (TulipGarden.size 8) (TulipGarden.hue 8) (delayD 8) true).startOffsets.tail.Nodup ∧
      ¬ (Tulip (TulipGarden.size 8) (TulipGarden.hue 8) (delayD 8) true).startOffsets.Nodup) :=
  have hd : |delayD 8| ≤ 2 ^ 48 :=
    le_trans (abs_delayD_le 8 (by decide)) (by norm_num)
  ⟨(part_offsets_staggered 100 310 (delayD 8) 1 3 8).2.2.1 (delayD_isDouble 8 (by decide)),
   (part_offsets_staggered 100 310 (delayD 8) 1 3 8).2.2.2.1 hd,
   (part_offsets_staggered 100 310 (delayD 8) 1 3 8).2.2.2.2.1 hd (by decide) (by decide),
   (part_offsets_staggered 100 310 (delayD 8) 1 3 8).2.2.2.2.2.1 (by decide),
   (part_offsets_staggered 100 310 (delayD 8) 1 3 8).2.2.2.2.2.2.1
     (Tulip (TulipGarden.size 8) (TulipGarden.hue 8) (delayD 8) true)
     (List.mem_map.mpr ⟨mkTulip 8, List.mem_map.mpr ⟨8, by decide, rfl⟩, rfl⟩)⟩

/-- C7 (as stated, refuted): tulips 0 and 19 are placed at `left = 4` and
`left = 5`, closer than one step of 5. -/
theorem left_spacing_counterexample : ¬ (5 ≤ |left 0 - left 19|) := by
  decide

/-- C7 (amended): `left (i + 1) = left i + 5` for `i < 18` and
`left 19 < left 18`; any two distinct indices below 20 are at least 5 apart
except the pairs made of index 19 and index 0 or 1, which are 1 and 4 apart;
the 20 positions are pairwise distinct. -/
theorem left_spacing (i j : Nat) :
    (i < 18 → left (i + 1) = left i + 5) ∧ left 19 < left 18 ∧
    (i < 20 → j < 20 → i ≠ j → ¬ (max i j = 19 ∧ min i j ≤ 1) → 5 ≤ |left i - left j|) ∧
    (i < 20 → j < 20 → i ≠ j → left i ≠ left j) ∧
    |left 19 - left 0| = 1 ∧ |left 19 - left 1| = 4 := by
  have hw := left_wrap
  refine ⟨?_, by decide, ?_, ?_, by decide, by decide⟩
  · intro h
    rw [left_first_cycle i (by omega), left_first_cycle (i + 1) (by omega)]
    push_cast
    ring
  · intro h1 h2 h3 h4
    rw [le_abs]
    rcases Nat.lt_or_ge i 19 with hi | hi <;> rcases Nat.lt_or_ge j 19 with hj | hj
    · have a := left_first_cycle i hi
      have b := left_first_cycle j hj
      omega
    · have a := left_first_cycle i hi
      have hj' : j = 19 := by omega
      subst hj'
      have : 2 ≤ i := by
        by_contra hc
        exact h4 ⟨by omega, by omega⟩
      omega
    · have b := left_first_cycle j hj
      have hi' : i = 19 := by omega
      subst hi'
      have : 2 ≤ j := by
        by_contra hc
        exact h4 ⟨by omega, by omega⟩
      omega
    · omega
  · intro h1 h2 h3
    rcases Nat.lt_or_ge i 19 with hi | hi <;> rcases Nat.lt_or_ge j 19 with hj | hj
    · have a := left_first_cycle i hi
      have b := left_first_cycle j hj
      omega
    · have a := left_first_cycle i hi
      have hj' : j = 19 := by omega
      subst hj'
      omega
    · have b := left_first_cycle j hj
      have hi' : i = 19 := by omega
      subst hi'
      omega
    · omega

theorem left_spacing_witness :
    left (17 + 1) = left 17 + 5 ∧ 5 ≤ |left 2 - left 19| ∧ left 0 ≠ left 19 :=
  ⟨(left_spacing 17 0).1 (by decide),
   (left_spacing 2 19).2.2.1 (by decide) (by decide) (by decide) (by decide),
   (left_spacing 0 19).2.2.2.1 (by decide) (by decide) (by decide)⟩

/-- C8: with `bloom = false`, for every size, hue and delay, the stem style
and `petalCommon idx` for every `idx` have animation `none`; with `bloom = true`
none of them is `none`. The garden renders 20 tulips from its single bloom flag,
and each of them has all five animations off exactly when the flag is false. -/
theorem animations_suppressed_iff_dormant (size hue : Int) (delay : ℚ) (bloom : Bool)
    (idx : Nat) :
    (stemStyle size delay false).animation = none ∧
    petalCommon delay false idx = none ∧
    (∀ a ∈ (Tulip size hue delay false).animations, a = none) ∧
    (stemStyle size delay true).animation ≠ none ∧
    petalCommon delay true idx ≠ none ∧
    (∀ a ∈ (Tulip size hue delay true).animations, a ≠ none) ∧
    (render bloom).length = 20 ∧
    (∀ v ∈ render bloom, (∀ a ∈ v.animations, a = none) ↔ bloom = false) := by
  refine ⟨rfl, rfl, ?_, ?_, ?_, ?_, ?_, ?_⟩
  · simp [Tulip, TulipView.animations, stemStyle, petalCommon]
  · simp [stemStyle]
  · simp [petalCommon]
  · simp [Tulip, TulipView.animations, stemStyle, petalCommon]
  · simp [render, tulips]
  · intro v hv
    simp only [render, List.mem_map] at hv
    obtain ⟨t, _, rfl⟩ := hv
    cases bloom <;> simp [Tulip, TulipView.animations, stemStyle, petalCommon]

theorem animations_suppressed_iff_dormant_witness :
    (Tulip (size 3) (hue 3) (delayD 3) false).highlight = none ∧
    ((∀ a ∈ (Tulip (size 3) (hue 3) (delayD 3) false).animations, a = none) ↔ false = false) :=
  ⟨(animations_suppressed_iff_dormant (size 3) (hue 3) (delayD 3) false 0).2.2.1
      (Tulip (size 3) (hue 3) (delayD 3) false).highlight
      (by simp [TulipView.animations]),
   (animations_suppressed_iff_dormant 0 0 0 false 0).2.2.2.2.2.2.2
      (Tulip (size 3) (hue 3) (delayD 3) false)
      (List.mem_map.mpr ⟨mkTulip 3, List.mem_map.mpr ⟨3, by decide, rfl⟩, rfl⟩)⟩

/-- C9: for every integer `hue` with `0 ≤ hue < 360`, the three petal colours
have hue components `hue`, `(hue + 10) mod 360` and `(hue - 10) mod 360`, each
in `[0, 360)` and pairwise distinct, paired with the fixed, pairwise distinct
(saturation, lightness) values (80, 65), (85, 60) and (75, 70). -/
theorem petal_colours (hue : Int) (h0 : 0 ≤ hue) (h1 : hue < 360) :
    (petal1 hue).h = hue ∧ (petal2 hue).h = (hue + 10) % 360 ∧
    (petal3 hue).h = (hue - 10) % 360 ∧
    (0 ≤ (petal1 hue).h ∧ (petal1 hue).h < 360) ∧
    (0 ≤ (petal2 hue).h ∧ (petal2 hue).h < 360) ∧
    (0 ≤ (petal3 hue).h ∧ (petal3 hue).h < 360) ∧
    ((petal1 hue).s, (petal1 hue).l) = (80, 65) ∧
    ((petal2 hue).s, (petal2 hue).l) = (85, 60) ∧
    ((petal3 hue).s, (petal3 hue).l) = (75, 70) ∧
    ((petal1 hue).s, (petal1 hue).l) ≠ ((petal2 hue).s, (petal2 hue).l) ∧
    ((petal1 hue).s, (petal1 hue).l) ≠ ((petal3 hue).s, (petal3 hue).l) ∧
    ((petal2 hue).s, (petal2 hue).l) ≠ ((petal3 hue).s, (petal3 hue).l) ∧
    (petal1 hue).h ≠ (petal2 hue).h ∧ (petal1 hue).h ≠ (petal3 hue).h ∧
    (petal2 hue).h ≠ (petal3 hue).h := by
  have e2 : (petal2 hue).h = (hue + 10) % 360 := by
    simp only [petal2]
    exact jsMod_of_nonneg _ _ (by omega) (by norm_num)
  have e3 : (petal3 hue).h = (hue - 10) % 360 := by
    simp only [petal3]
    rw [jsMod_of_nonneg _ _ (by omega) (by norm_num)]
    omega
  have e1 : (petal1 hue).h = hue := rfl
  have d12 : ((petal1 hue).s, (petal1 hue).l) ≠ ((petal2 hue).s, (petal2 hue).l) := by
    simp [petal1, petal2]
  have d13 : ((petal1 hue).s, (petal1 hue).l) ≠ ((petal3 hue).s, (petal3 hue).l) := by
    simp [petal1, petal3]
  have d23 : ((petal2 hue).s, (petal2 hue).l) ≠ ((petal3 hue).s, (petal3 hue).l) := by
    simp [petal2, petal3]
  refine ⟨e1, e2, e3, ?_, ?_, ?_, rfl, rfl, rfl, d12, d13, d23, ?_, ?_, ?_⟩
  all_goals (simp only [e1, e2, e3]; omega)

theorem petal_colours_witness :
    (0 : Int) ≤ 5 ∧ (5 : Int) < 360 ∧ (petal3 5).h = (5 - 10) % 360 ∧
    (petal2 5).h ≠ (petal3 5).h :=
  ⟨by decide, by decide, (petal_colours 5 (by decide) (by decide)).2.2.1,
   (petal_colours 5 (by decide) (by decide)).2.2.2.2.2.2.2.2.2.2.2.2.2.2⟩

/-- C10: over the 20 generated tulips `size i = 100 + (i mod 5) * 22` takes
exactly the values 100, 122, 144, 166 and 188, hence at least 5 distinct ones;
every size is positive, adjacent indices always have different sizes, and
`size 0 = 100`. -/
theorem size_distinct_values (i : Nat) :
    size i = 100 + ((i % 5 : Nat) : Int) * 22 ∧
    ((List.range 20).map size).toFinset = {100, 122, 144, 166, 188} ∧
    (tulips.map FlowerParams.size) = (List.range 20).map size ∧
    5 ≤ ((List.range 20).map size).toFinset.card ∧
    0 < size i ∧ size i ≠ size (i + 1) ∧ size 0 = 100 := by
  have h := size_eq i
  have h' := size_eq (i + 1)
  refine ⟨h, by decide, ?_, by decide, ?_, ?_, by decide⟩
  · simp [tulips, mkTulip]
  · omega
  · omega

end TulipGarden
